import Mathlib

/-!
Shallow embedding of the recipe-music-video MIDI generation core
(`src/midi-generation/...`), used to check the natural-language
specification against the code.

Numeric conventions: JS numbers are modelled by `ℚ` (all constants in the
source are decimal literals, and every comparison settled below is robust to
double rounding); MIDI pitches by `Int`; thrown JS errors by
`Except String`.  JS `x || y` on numbers is modelled by an explicit zero
test (the only falsy number reachable here is `0`; `undefined` is modelled
by `Option`).  JS `%` is modelled by `Int.tmod` (sign of the dividend,
as in JS).
-/

/-- JS value that is either a number or a string, as accepted by
`noteToMidi` (`note-utils.js`). -/
inductive NoteInput where
  | num (x : ℚ)
  | str (s : String)
deriving Repr, DecidableEq

/-- `NOTE_NAMES` from `note-utils.js`: the twelve pitch-class names in
sharp spelling, C through B. -/
def NOTE_NAMES : List String :=
  ["C", "C#", "D", "D#", "E", "F"] ++ ["F#", "G", "G#", "A", "A#", "B"]

/-- `NOTE_ALIASES` from `note-utils.js` (enharmonic spellings). -/
def NOTE_ALIASES : String → Option String
  | "Db" => some "C#"
  | "Eb" => some "D#"
  | "Fb" => some "E"
  | "Gb" => some "F#"
  | "Ab" => some "G#"
  | "Bb" => some "A#"
  | "Cb" => some "B"
  | "E#" => some "F"
  | "B#" => some "C"
  | _ => none

/-- The property names every object literal inherits from
`Object.prototype` (the ECMAScript-defined methods plus the Annex B
accessors).  A JS property read or `in` test on an object literal finds
these keys with truthy, non-array values, so they behave differently from
genuinely absent keys. -/
def objectPrototypeKeys : List String :=
  ["constructor", "hasOwnProperty", "isPrototypeOf", "propertyIsEnumerable",
   "toLocaleString", "toString", "valueOf", "__proto__", "__defineGetter__",
   "__defineSetter__", "__lookupGetter__", "__lookupSetter__"]

/-- What `SCALE_INTERVALS[scaleType]` evaluates to in JS: an own key gives
its interval array; a key inherited from `Object.prototype` gives a
truthy non-array value (a function, or `Object.prototype` itself for
`__proto__`); anything else is `undefined` (falsy). -/
inductive ScaleLookup where
  | arr (intervals : List Int)
  | protoProp
  | notDefined
deriving Repr, DecidableEq

/-- `SCALE_INTERVALS` from `note-utils.js`, as a JS property lookup:
the thirteen own keys, then the inherited `Object.prototype` keys, then
`undefined` (on which the callers default to major). -/
def SCALE_INTERVALS : String → ScaleLookup
  | "major" => .arr [0, 2, 4, 5, 7, 9, 11]
  | "minor" => .arr [0, 2, 3, 5, 7, 8, 10]
  | "natural_minor" => .arr [0, 2, 3, 5, 7, 8, 10]
  | "harmonic_minor" => .arr [0, 2, 3, 5, 7, 8, 11]
  | "melodic_minor" => .arr [0, 2, 3, 5, 7, 9, 11]
  | "pentatonic" => .arr [0, 2, 4, 7, 9]
  | "pentatonic_minor" => .arr [0, 3, 5, 7, 10]
  | "chromatic" => .arr [0, 1, 2, 3, 4, 5, 6, 7, 8, 9, 10, 11]
  | "dorian" => .arr [0, 2, 3, 5, 7, 9, 10]
  | "phrygian" => .arr [0, 1, 3, 5, 7, 8, 10]
  | "lydian" => .arr [0, 2, 4, 6, 7, 9, 11]
  | "mixolydian" => .arr [0, 2, 4, 5, 7, 9, 10]
  | "locrian" => .arr [0, 1, 3, 5, 6, 8, 10]
  | t => if objectPrototypeKeys.contains t then .protoProp else .notDefined

/-- Character class `[A-Ga-g]` of the note-name regex in `noteToMidi`. -/
def isNoteLetter (c : Char) : Bool :=
  (('A' ≤ c && c ≤ 'G') || ('a' ≤ c && c ≤ 'g'))

/-- Decimal value of a digit string (the `\d+` group, via `parseInt`). -/
def digitsVal (cs : List Char) : Int :=
  cs.foldl (fun a c => a * 10 + (Int.ofNat (c.toNat - '0'.toNat))) 0

/-- Parse the `-?\d+` octave group of the note-name regex. -/
def parseOctave : List Char → Option Int
  | '-' :: rest =>
      if rest ≠ [] ∧ rest.all Char.isDigit then some (-(digitsVal rest)) else none
  | cs =>
      if cs ≠ [] ∧ cs.all Char.isDigit then some (digitsVal cs) else none

/-- `noteToMidi` from `note-utils.js`: number branch floors after a range
check; string branch parses `^([A-Ga-g][#b]?)(-?\d+)$`, uppercases the
letter, resolves enharmonic aliases and range-checks the result. -/
def noteToMidi : NoteInput → Except String Int
  | .num x =>
      if x < 0 ∨ 127 < x then .error "MIDI note number must be 0-127"
      else .ok ⌊x⌋
  | .str s =>
      if s.length < 2 then .error "Invalid note name" else
      match s.data with
      | [] => .error "Invalid note format"
      | c :: rest =>
        if isNoteLetter c then
          let acc : Option Char × List Char :=
            match rest with
            | a :: rest2 => if a = '#' ∨ a = 'b' then (some a, rest2) else (none, rest)
            | [] => (none, [])
          match parseOctave acc.2 with
          | none => .error "Invalid note format"
          | some octave =>
            let noteRaw : String :=
              String.mk (c.toUpper :: (match acc.1 with | some a => [a] | none => []))
            let note := (NOTE_ALIASES noteRaw).getD noteRaw
            match NOTE_NAMES.findIdx? (· = note) with
            | none => .error "Unknown note name"
            | some noteIndex =>
              let midi : Int := (octave + 1) * 12 + noteIndex
              if midi < 0 ∨ 127 < midi then
                .error "Resulting MIDI note is out of range (0-127)"
              else .ok midi
        else .error "Invalid note format"

/-- Decimal digits of a natural number, fuel-based (models JS integer
to-string coercion). -/
def natDecChars : Nat → Nat → List Char
  | 0, _ => []
  | _ + 1, 0 => []
  | fuel + 1, n => natDecChars fuel (n / 10) ++ [Char.ofNat ('0'.toNat + n % 10)]

/-- Decimal string of an integer (JS number-to-string on an integer). -/
def intDecString (i : Int) : String :=
  if i < 0 then "-" ++ String.mk (natDecChars (i.natAbs + 1) i.natAbs)
  else if i = 0 then "0"
  else String.mk (natDecChars (i.toNat + 1) i.toNat)

/-- `midiToNote` from `note-utils.js`: `NOTE_NAMES[n % 12]` followed by
`Math.floor(n / 12) - 1` (the argument is an integer in every call the
claims touch). -/
def midiToNote (midiNote : Int) : Except String String :=
  if midiNote < 0 ∨ 127 < midiNote then .error "MIDI note number must be 0-127"
  else
    let noteIndex := (midiNote.tmod 12).toNat
    let octave := midiNote / 12 - 1
    .ok ((NOTE_NAMES.getD noteIndex "") ++ intDecString octave)

/-- Ascending insertion of one element (model of the effect of JS
`array.sort((a, b) => a - b)` together with `sortAsc`). -/
def insertAsc (x : Int) : List Int → List Int
  | [] => [x]
  | y :: ys => if x ≤ y then x :: y :: ys else y :: insertAsc x ys

/-- Numeric ascending sort, modelling `array.sort((a, b) => a - b)`. -/
def sortAsc (l : List Int) : List Int := l.foldr insertAsc []

/-- `getScale` from `note-utils.js`: resolve the root, look up the
interval set (defaulting to major), enumerate octaves
`startOctave .. startOctave + octaves`, keep in-range non-duplicate
pitches in encounter order, and sort ascending. -/
def getScale (root : NoteInput) (scaleType : String) (octaves : Nat) :
    Except String (List Int) := do
  let rootMidi ← noteToMidi root
  -- `SCALE_INTERVALS[scaleType] || SCALE_INTERVALS.major`: an undefined
  -- (falsy) lookup defaults to major; an inherited Object.prototype
  -- member is truthy and kept, and `for (const interval of intervals)`
  -- below then throws a TypeError (surfaced here — nothing observable
  -- happens in between; the message text is engine-dependent)
  let intervals : List Int ←
    match SCALE_INTERVALS scaleType with
    | .arr l => pure l
    | .protoProp => Except.error "TypeError: intervals is not iterable"
    | .notDefined => pure [0, 2, 4, 5, 7, 9, 11]
  let rootPitchClass := rootMidi.tmod 12
  -- rootMidi is in [0,127], so `/` agrees with Math.floor here
  let startOctave : Int := rootMidi / 12 - (octaves / 2 : Nat)
  let octList := (List.range (octaves + 1)).map (fun i => startOctave + i)
  let scale := octList.foldl
    (fun acc octave =>
      intervals.foldl
        (fun acc interval =>
          let note := octave * 12 + rootPitchClass + interval
          if 0 ≤ note ∧ note ≤ 127 ∧ ¬ acc.contains note then acc ++ [note]
          else acc)
        acc)
    []
  .ok (sortAsc scale)

/-- All integers from `lo` to `hi` inclusive (JS `for` loop enumeration). -/
def intRangeList (lo hi : Int) : List Int :=
  (List.range (hi + 1 - lo).toNat).map (fun i => lo + i)

/-- Pitch range `{low, high}` of a section (each bound a note name or a
number, resolved through `noteToMidi`). -/
structure RangeSpec where
  low : NoteInput
  high : NoteInput
deriving Repr, DecidableEq

/-- `getPitchesInRange` from `note-utils.js`. -/
def getPitchesInRange (range : RangeSpec) (scale : Option (List Int)) :
    Except String (List Int) := do
  let lowMidi ← noteToMidi range.low
  let highMidi ← noteToMidi range.high
  if lowMidi > highMidi then .error "Invalid range: low is higher than high"
  else
    match scale with
    | some sc =>
        if sc.length > 0 then
          .ok (sc.filter (fun note => lowMidi ≤ note ∧ note ≤ highMidi))
        else .ok (intRangeList lowMidi highMidi)
    | none => .ok (intRangeList lowMidi highMidi)

/-- `getScaleStep` from `note-utils.js`.  The nearest-note search keeps the
first index of minimal distance, as the strict `<` in the JS loop does.
Every call site in the embedded patterns guards `scale.length > 0`; on an
empty scale the JS code would index `undefined` and this model returns 0. -/
def getScaleStep (currentNote : Int) (scale : List Int) (steps : Int) : Int :=
  let currentIndex : Int :=
    match scale.findIdx? (· = currentNote) with
    | some i => Int.ofNat i
    | none =>
        (scale.foldl
          (fun (st : Option Nat × Int × Nat) x =>
            let (minDist, bestIdx, i) := st
            let dist := (x - currentNote).natAbs
            match minDist with
            | none => (some dist, Int.ofNat i, i + 1)
            | some d => if dist < d then (some dist, Int.ofNat i, i + 1)
                        else (minDist, bestIdx, i + 1))
          (none, -1, 0)).2.1
  let newIndex := currentIndex + steps
  if newIndex < 0 then scale.headD 0
  else if newIndex ≥ scale.length then (scale.getLast?).getD 0
  else scale.getD newIndex.toNat 0

/-- `getContourDirection` from `note-utils.js`: sign of last minus first. -/
def getContourDirection (notes : List Int) : Int :=
  if notes.length < 2 then 0
  else
    let totalMovement := (notes.getLast?).getD 0 - notes.headD 0
    if totalMovement > 0 then 1 else if totalMovement < 0 then -1 else 0

deriving instance DecidableEq for Except

/-! ## Strategy configuration (`config/pattern-strategies.js`)

The entries of `PATTERN_STRATEGIES` used by the embedded patterns, one
definition per table field. -/

namespace PS

def thematic_statement_durationFactor : ℚ := 0.95
def thematic_statement_velocityModifier : ℚ := 0
def thematic_fragmented_fragmentLength : Nat := 3
def thematic_fragmented_sequenceInterval : Int := 2
def thematic_fragmented_durationFactor : ℚ := 0.95
def thematic_fragmented_velocityModifier : ℚ := 0
def thematic_retrograde_durationFactor : ℚ := 0.95
def thematic_retrograde_velocityModifier : ℚ := 0
def foundation_pedal_quartilePosition : ℚ := 0.25
def foundation_pedal_sustainGap : ℚ := 0.05
def foundation_pedal_velocityModifier : ℚ := -25
def minimal_accents_minInterval : ℚ := 3.0
def minimal_accents_maxInterval : ℚ := 4.0
def minimal_accents_duration : ℚ := 0.3
def minimal_accents_durationFactor : ℚ := 0.4
def minimal_accents_velocityModifier : ℚ := 0
def rhythmicSpacing_accents_humanize : ℚ := 0.3

end PS

/-- Scale field of a section: `{root, type}`. -/
structure ScaleSpec where
  root : NoteInput
  type : Option String
deriving Repr, DecidableEq

/-- A section of a track, with the fields the embedded code reads.
Optional JS fields are `Option`s (`none` = `undefined`). -/
structure Section where
  start_time : ℚ
  end_time : ℚ
  pattern_type : Option String
  velocity_avg : Option ℚ
  scale : Option ScaleSpec
  pitch_range : Option RangeSpec
  late_entry : Option ℚ
  sequence : Option Bool
deriving Repr, DecidableEq

/-- Theme definition: parallel `notes` / `rhythm` arrays, each possibly
absent. -/
structure Theme where
  notes : Option (List Int)
  rhythm : Option (List ℚ)
deriving Repr, DecidableEq

/-- One note event as passed to `track.addNote`. -/
structure Note where
  midi : Int
  time : ℚ
  duration : ℚ
  velocity : ℚ
deriving Repr, DecidableEq

/-- `calculateLateEntryStart` from `config/pattern-strategies.js`. -/
def calculateLateEntryStart (s : Section) : ℚ :=
  match s.late_entry with
  | none => s.start_time
  | some le =>
      if le ≤ 0 then s.start_time
      else
        let clampedLateEntry := min 1 (max 0 le)
        s.start_time + (s.end_time - s.start_time) * clampedLateEntry

/-- `applyVelocityModifier` from `config/pattern-strategies.js`. -/
def applyVelocityModifier (baseVelocity modifier : ℚ) : ℚ :=
  max 1 (min 127 (baseVelocity + modifier))

/-- One step of the inline linear congruential generator
`seed = (seed * 1103515245 + 12345) % 2147483648` shared by all seeded
patterns; returns the drawn value `seed / 2147483648` and the new seed.
The JS multiplication is double-precision and can round above 2^53; the
claims settled here do not depend on the drawn values, so the step is
modelled in exact integer arithmetic. -/
def lcgNext (seed : Int) : ℚ × Int :=
  let seed2 := (seed * 1103515245 + 12345).tmod 2147483648
  ((seed2 : ℚ) / 2147483648, seed2)

/-- `humanizeValue` from `config/pattern-strategies.js`, with the
pattern-local `pseudoRandom` closure modelled by explicit seed threading.
When `humanize ≤ 0` the random source is not consulted (no seed advance),
as in the source.  Every call site in the library passes its own seeded
generator, so the `Math.random` default parameter is never reached. -/
def humanizeValueS (value humanize : ℚ) (seed : Int) : ℚ × Int :=
  if humanize ≤ 0 then (value, seed)
  else
    let (r, seed2) := lcgNext seed
    (value * (1 + (r * 2 - 1) * humanize), seed2)

/-! ## Thematic patterns -/

/-- The shared note-emission loop of the thematic statement and retrograde
patterns (config variants; `retrograde.js`): per note, rhythm value
`rhythm[index] || 1` scaled by the quarter note; a note whose scaled end
would pass `end_time` is skipped without advancing time (the `forEach`
callback returns before `currentTime += duration`). -/
def guardedThemeLoop (quarterNote durationFactor end_time vel : ℚ) :
    List Int → List ℚ → ℚ → List Note
  | [], _, _ => []
  | pitch :: restNotes, rs, currentTime =>
      -- rs is the rhythm array from position `index` on; its head is
      -- `rhythm[index]`, read as 0 (falsy) when past the end
      let r := rs.headD 0
      let beatDuration := if r = 0 then 1 else r
      let duration := beatDuration * quarterNote
      if currentTime + duration * durationFactor > end_time then
        guardedThemeLoop quarterNote durationFactor end_time vel
          restNotes rs.tail currentTime
      else
        { midi := pitch, time := currentTime,
          duration := duration * durationFactor, velocity := vel / 127 }
          :: guardedThemeLoop quarterNote durationFactor end_time vel
               restNotes rs.tail (currentTime + duration)

/-- Thematic statement pattern, config variant (`retrograde.js`, second
`statement` document): replays the theme with late entry, velocity
modifier and the end-of-section guard. -/
def applyStatement (themeOpt : Option Theme) (s : Section) (tempo : ℚ) :
    Except String (List Note) :=
  match themeOpt with
  | none => .error "Thematic statement requires theme with notes and rhythm arrays"
  | some theme =>
    match theme.notes, theme.rhythm with
    | some notes, some rhythm =>
        let durationFactor := PS.thematic_statement_durationFactor
        let velocity_avg := s.velocity_avg.getD 80
        let startTime := calculateLateEntryStart s
        let adjustedVelocity :=
          applyVelocityModifier velocity_avg PS.thematic_statement_velocityModifier
        let quarterNote := 60 / tempo
        .ok (guardedThemeLoop quarterNote durationFactor s.end_time
              adjustedVelocity notes rhythm startTime)
    | _, _ => .error "Thematic statement requires theme with notes and rhythm arrays"

/-- Thematic retrograde pattern, config variant (`retrograde.js`, first
document): as the statement pattern, on the reversed notes and rhythm. -/
def applyRetrograde (themeOpt : Option Theme) (s : Section) (tempo : ℚ) :
    Except String (List Note) :=
  match themeOpt with
  | none => .error "Thematic retrograde requires theme with notes and rhythm arrays"
  | some theme =>
    match theme.notes, theme.rhythm with
    | some notes, some rhythm =>
        let durationFactor := PS.thematic_retrograde_durationFactor
        let velocity_avg := s.velocity_avg.getD 80
        let startTime := calculateLateEntryStart s
        let adjustedVelocity :=
          applyVelocityModifier velocity_avg PS.thematic_retrograde_velocityModifier
        let retrogradeNotes := notes.reverse
        let retrogradeRhythm := rhythm.reverse
        let quarterNote := 60 / tempo
        .ok (guardedThemeLoop quarterNote durationFactor s.end_time
              adjustedVelocity retrogradeNotes retrogradeRhythm startTime)
    | _, _ => .error "Thematic retrograde requires theme with notes and rhythm arrays"

/-- Duration-factor constant of the non-config thematic variants
(`extended.js`). -/
def LEGATO_DURATION_FACTOR : ℚ := 0.95

/-- Theme playback loop of the thematic extended pattern
(`extended.js`, step 1): every theme note is emitted, with no check
against `end_time`.  Returns the emitted notes and the final time. -/
def unguardedThemeLoop (quarterNote vel : ℚ) :
    List Int → List ℚ → ℚ → List Note × ℚ
  | [], _, currentTime => ([], currentTime)
  | pitch :: restNotes, rs, currentTime =>
      let r := rs.headD 0
      let beatDuration := if r = 0 then 1 else r
      let duration := beatDuration * quarterNote
      let rest := unguardedThemeLoop quarterNote vel
        restNotes rs.tail (currentTime + duration)
      ({ midi := pitch, time := currentTime,
         duration := duration * LEGATO_DURATION_FACTOR, velocity := vel / 127 }
         :: rest.1, rest.2)

/-- Extension loop of the thematic extended pattern (`extended.js`,
step 2), fuel-indexed (the JS `while` runs until the next note would pass
`end_time` or the stepped pitch leaves [0,127]). -/
def extendedLoop (scale : List Int) (stepDirection : Int)
    (extensionDuration end_time vel : ℚ) : Nat → ℚ → Int → List Note
  | 0, _, _ => []
  | fuel + 1, currentTime, currentPitch =>
      if currentTime + extensionDuration ≤ end_time then
        let newPitch :=
          if scale.length > 0 then getScaleStep currentPitch scale stepDirection
          else currentPitch + stepDirection * 2
        if newPitch < 0 ∨ newPitch > 127 then []
        else
          { midi := newPitch, time := currentTime,
            duration := extensionDuration * LEGATO_DURATION_FACTOR,
            velocity := vel / 127 }
            :: extendedLoop scale stepDirection extensionDuration end_time vel
                 fuel (currentTime + extensionDuration) newPitch
      else []

/-- Thematic extended pattern (`extended.js`): full theme once (no
end-of-section guard), then stepwise extension in the contour direction.
`fuel` bounds the extension `while` loop, which the source leaves
unbounded. -/
def applyExtended (themeOpt : Option Theme) (s : Section) (tempo : ℚ)
    (scale : List Int) (fuel : Nat) : Except String (List Note) :=
  match themeOpt with
  | none => .error "Thematic extended requires theme with notes and rhythm arrays"
  | some theme =>
    match theme.notes, theme.rhythm with
    | some notes, some rhythm =>
        let velocity_avg := s.velocity_avg.getD 80
        let quarterNote := 60 / tempo
        let played := unguardedThemeLoop quarterNote velocity_avg
          notes rhythm s.start_time
        let direction := getContourDirection notes
        let stepDirection := if direction = 0 then 1 else direction
        let currentPitch := (notes.getLast?).getD 0
        let avgRhythm : ℚ := if rhythm.length = 0 then 0
          else rhythm.foldl (fun a r => a + r) (0 : ℚ) / (rhythm.length : ℚ)
        let extensionBeatDuration := if avgRhythm = 0 then 1 else avgRhythm
        let extensionDuration := extensionBeatDuration * quarterNote
        .ok (played.1 ++ extendedLoop scale stepDirection extensionDuration
              s.end_time velocity_avg fuel played.2 currentPitch)
    | _, _ => .error "Thematic extended requires theme with notes and rhythm arrays"

/-- Inner fragment playback of the thematic fragmented pattern
(`part_009`, config variant): each note advances the clock by its rhythm
value whether or not the transposed pitch is dropped for leaving [0,127].
Returns the emitted notes and the final time. -/
def playFragment (transposition : Int) (quarterNote durationFactor vel : ℚ) :
    List Int → List ℚ → ℚ → List Note × ℚ
  | [], _, currentTime => ([], currentTime)
  | pitch :: restNotes, rs, currentTime =>
      let r := rs.headD 0
      let beatDuration := if r = 0 then 1 else r
      let duration := beatDuration * quarterNote
      let transposedPitch := pitch + transposition
      let rest := playFragment transposition quarterNote durationFactor vel
        restNotes rs.tail (currentTime + duration)
      if 0 ≤ transposedPitch ∧ transposedPitch ≤ 127 then
        ({ midi := transposedPitch, time := currentTime,
           duration := duration * durationFactor, velocity := vel / 127 }
           :: rest.1, rest.2)
      else rest

/-- Repetition loop of the thematic fragmented pattern: repeat the
fragment while a whole further fragment fits before `end_time`,
transposing repetition `k` by `k * sequenceInterval` when `sequence`
is set. -/
def fragmentedLoop (fragNotes : List Int) (fragRhythm : List ℚ)
    (sequence : Bool) (seqInterval : Int)
    (quarterNote durationFactor fragmentDuration end_time vel : ℚ) :
    Nat → ℚ → Nat → List Note
  | 0, _, _ => []
  | fuel + 1, currentTime, repetition =>
      if currentTime + fragmentDuration ≤ end_time then
        let transposition := if sequence then repetition * seqInterval else 0
        let played := playFragment transposition quarterNote
          durationFactor vel fragNotes fragRhythm currentTime
        played.1 ++ fragmentedLoop fragNotes fragRhythm sequence seqInterval
          quarterNote durationFactor fragmentDuration end_time vel
          fuel played.2 (repetition + 1)
      else []

/-- Thematic fragmented pattern (`part_009`, config variant).  The source
checks `theme.notes` but reads `theme.rhythm` unchecked; an absent rhythm
is the JS `TypeError` on `rhythm.slice`.  `fuel` bounds the repetition
`while` loop. -/
def applyFragmented (themeOpt : Option Theme) (s : Section) (tempo : ℚ)
    (fuel : Nat) : Except String (List Note) :=
  let fragmentLength := PS.thematic_fragmented_fragmentLength
  match themeOpt with
  | none => .error "Thematic fragmented requires theme with at least 3 notes"
  | some theme =>
    match theme.notes with
    | none => .error "Thematic fragmented requires theme with at least 3 notes"
    | some notes =>
      if notes.length < fragmentLength then
        .error "Thematic fragmented requires theme with at least 3 notes"
      else
        match theme.rhythm with
        | none => .error "TypeError: cannot read slice of undefined"
        | some rhythm =>
            let sequence := s.sequence.getD false
            let startTime := calculateLateEntryStart s
            let adjustedVelocity := applyVelocityModifier (s.velocity_avg.getD 80)
              PS.thematic_fragmented_velocityModifier
            let fragmentNotes := notes.take fragmentLength
            let fragmentRhythm := rhythm.take fragmentLength
            let quarterNote := 60 / tempo
            let durationFactor := PS.thematic_fragmented_durationFactor
            let fragmentDuration :=
              fragmentRhythm.foldl (fun sum r => sum + r * quarterNote) 0
            .ok (fragmentedLoop fragmentNotes fragmentRhythm sequence
                  PS.thematic_fragmented_sequenceInterval quarterNote
                  durationFactor fragmentDuration s.end_time adjustedVelocity
                  fuel startTime 0)

/-! ## Supporting patterns -/

/-- Foundation pedal pattern, config variant (`part_008`): one note from
`startTime` (late entry honoured) to the section end minus the configured
sustain gap, duration floored at 0.1 s; pitch from the configured quartile
of the pool, falling back to `pitch_range.low`, then the lowest scale
pitch, then MIDI 36. -/
def applyFoundationPedalCfg (s : Section) (scale pitches : List Int) :
    Except String (List Note) := do
  let startTime := calculateLateEntryStart s
  let pedalNote : Int ←
    if pitches.length > 0 then
      let quartileIndex : Int :=
        ⌊(pitches.length : ℚ) * PS.foundation_pedal_quartilePosition⌋
      pure (pitches.getD (max 0 quartileIndex).toNat 0)
    else
      match s.pitch_range with
      | some pr => noteToMidi pr.low
      | none =>
          if scale.length > 0 then pure (scale.headD 0)
          else pure 36
  let duration := s.end_time - startTime - PS.foundation_pedal_sustainGap
  let adjustedVelocity := applyVelocityModifier (s.velocity_avg.getD 80)
    PS.foundation_pedal_velocityModifier
  pure [{ midi := pedalNote, time := startTime,
          duration := max 0.1 duration, velocity := adjustedVelocity / 127 }]

/-- Foundation pedal pattern, constants variant (`part_007`): no late
entry; bottom-quartile index `Math.floor(length / 4)`, velocity
`Math.max(15, velocity_avg - 20) / 127`; duration floored at 0.1 s. -/
def applyFoundationPedalV2 (s : Section) (scale pitches : List Int) :
    Except String (List Note) := do
  let pedalNote : Int ←
    if pitches.length > 0 then
      let quartileIndex : Int := (pitches.length : Int) / 4
      pure (pitches.getD (max 0 quartileIndex).toNat 0)
    else
      match s.pitch_range with
      | some pr => noteToMidi pr.low
      | none =>
          if scale.length > 0 then pure (scale.headD 0)
          else pure 36
  let duration := s.end_time - s.start_time - 0.05
  let pedalVelocity := max 15 (s.velocity_avg.getD 80 - 20) / 127
  pure [{ midi := pedalNote, time := s.start_time,
          duration := max 0.1 duration, velocity := pedalVelocity }]

/-- Note loop of the gentle breathing pattern (`breathing.js`): one
sustained note per interval while it still ends before `end_time`, the
next pitch a seeded-random scale step (or chromatic step clamped to the
pool bounds when no scale is given). -/
def breathingLoop (scale availablePitches : List Int)
    (noteInterval noteDuration end_time vel : ℚ) :
    Nat → ℚ → Int → Int → List Note
  | 0, _, _, _ => []
  | fuel + 1, currentTime, currentPitch, seed =>
      if currentTime + noteDuration ≤ end_time then
        let note : Note :=
          { midi := currentPitch, time := currentTime,
            duration := noteDuration, velocity := vel / 127 }
        let drawn := lcgNext seed
        let nextPitch :=
          if scale.length > 0 then
            let step := ⌊drawn.1 * 5⌋ - 2
            getScaleStep currentPitch scale step
          else
            let step := ⌊drawn.1 * 5⌋ - 2
            max (availablePitches.headD 0)
              (min ((availablePitches.getLast?).getD 0) (currentPitch + step))
        note :: breathingLoop scale availablePitches noteInterval noteDuration
          end_time vel fuel (currentTime + noteInterval) nextPitch drawn.2
      else []

/-- Gentle breathing pattern (`breathing.js`).  `mathRandom` models the
ambient `Math.random` source of the JS environment; the source never
consults it (all randomness comes from the inline generator seeded from
`start_time`).  `fuel` bounds the `while` loop. -/
def applyGentleBreathing (mathRandom : Nat → ℚ) (s : Section) (tempo : ℚ)
    (scale pitches : List Int) (fuel : Nat) : Except String (List Note) := do
  let quarterNote := 60 / tempo
  let noteInterval := 3 * quarterNote
  let noteDuration := quarterNote * 1.2
  let availablePitches : List Int ←
    if pitches.length > 0 then pure pitches
    else if scale.length > 0 then pure scale
    else do
      let lowNote ← match s.pitch_range with
        | some pr => noteToMidi pr.low
        | none => pure 48
      let highNote ← match s.pitch_range with
        | some pr => noteToMidi pr.high
        | none => pure 72
      pure (intRangeList lowNote highNote)
  let currentPitch := availablePitches.getD (availablePitches.length / 2) 0
  let seed := (⌊s.start_time * 1000⌋).tmod 1000
  pure (breathingLoop scale availablePitches noteInterval noteDuration
    s.end_time (s.velocity_avg.getD 70) fuel s.start_time currentPitch seed)

/-- Note loop of the minimal accents pattern (`part_002`): a staccato note
wherever it still fits, then a random 3-4 s gap. -/
def minimalAccentsLoop (availablePitches : List Int) (end_time vel : ℚ) :
    Nat → ℚ → Int → List Note
  | 0, _, _ => []
  | fuel + 1, currentTime, seed =>
      if currentTime + 0.3 ≤ end_time then
        let drawn := lcgNext seed
        let pitchIndex := ⌊drawn.1 * availablePitches.length⌋
        let pitch := availablePitches.getD pitchIndex.toNat 0
        let note : Note :=
          { midi := pitch, time := currentTime,
            duration := 0.3 * 0.4, velocity := vel / 127 }
        let drawn2 := lcgNext drawn.2
        let interval := 3 + drawn2.1 * (4 - 3)
        note :: minimalAccentsLoop availablePitches end_time vel
          fuel (currentTime + interval) drawn2.2
      else []

/-- Minimal accents pattern, constants variant (`part_002`).  `mathRandom`
models the ambient `Math.random`, never consulted by the source; the
generator is seeded from `start_time`. -/
def applyMinimalAccents (mathRandom : Nat → ℚ) (s : Section)
    (pitches : List Int) (fuel : Nat) : Except String (List Note) := do
  let availablePitches : List Int ←
    if pitches.length = 0 then
      match s.pitch_range with
      | some pr => do
          let lowNote ← noteToMidi pr.low
          let highNote ← noteToMidi pr.high
          pure (intRangeList lowNote highNote)
      | none => pure []
    else pure pitches
  let availablePitches :=
    if availablePitches.length = 0 then [60, 62, 64, 65, 67, 69, 71, 72]
    else availablePitches
  let seed := (⌊s.start_time * 1000⌋).tmod 1000 + 42
  pure (minimalAccentsLoop availablePitches s.end_time
    (s.velocity_avg.getD 70) fuel s.start_time seed)

/-- Note loop of the minimal accents pattern, config variant
(`sustained-pad.js`, second document): configured duration and velocity,
interval drawn from the configured min/max range and then humanized
through `humanizeValue` with the same seeded generator. -/
def minimalAccentsCfgLoop (availablePitches : List Int)
    (noteDuration end_time vel : ℚ) : Nat → ℚ → Int → List Note
  | 0, _, _ => []
  | fuel + 1, currentTime, seed =>
      if currentTime + noteDuration ≤ end_time then
        let drawn := lcgNext seed
        let pitchIndex := ⌊drawn.1 * availablePitches.length⌋
        let pitch := availablePitches.getD pitchIndex.toNat 0
        let note : Note :=
          { midi := pitch, time := currentTime,
            duration := noteDuration, velocity := vel / 127 }
        let drawn2 := lcgNext drawn.2
        let baseInterval := PS.minimal_accents_minInterval +
          drawn2.1 * (PS.minimal_accents_maxInterval - PS.minimal_accents_minInterval)
        let humanized := humanizeValueS baseInterval
          PS.rhythmicSpacing_accents_humanize drawn2.2
        note :: minimalAccentsCfgLoop availablePitches noteDuration end_time vel
          fuel (currentTime + humanized.1) humanized.2
      else []

/-- Minimal accents pattern, config variant (`sustained-pad.js`, second
document): honours late entry and seeds the generator from the adjusted
start time.  `mathRandom` models the ambient `Math.random`, never
consulted by the source. -/
def applyMinimalAccentsCfg (mathRandom : Nat → ℚ) (s : Section)
    (pitches : List Int) (fuel : Nat) : Except String (List Note) := do
  let startTime := calculateLateEntryStart s
  let noteDuration := PS.minimal_accents_duration * PS.minimal_accents_durationFactor
  let adjustedVelocity := applyVelocityModifier (s.velocity_avg.getD 70)
    PS.minimal_accents_velocityModifier
  let availablePitches : List Int ←
    if pitches.length = 0 then
      match s.pitch_range with
      | some pr => do
          let lowNote ← noteToMidi pr.low
          let highNote ← noteToMidi pr.high
          pure (intRangeList lowNote highNote)
      | none => pure []
    else pure pitches
  let availablePitches :=
    if availablePitches.length = 0 then [60, 62, 64, 65, 67, 69, 71, 72]
    else availablePitches
  let seed := (⌊startTime * 1000⌋).tmod 1000 + 42
  pure (minimalAccentsCfgLoop availablePitches noteDuration s.end_time
    adjustedVelocity fuel startTime seed)

/-! ## Pattern registry (`pattern-registry.js`) -/

/-- Keys of the `thematicPatterns` object. -/
def thematicPatternNames : List String :=
  ["thematic_statement", "thematic_fragmented", "thematic_extended",
   "thematic_inverted", "thematic_retrograde"]

/-- Keys of the `supportingPatterns` object. -/
def supportingPatternNames : List String :=
  ["harmonic_arpeggio", "melodic_counterpoint", "gentle_breathing",
   "sparse_breathing", "very_sparse_breathing", "moderate_breathing",
   "active_breathing", "foundation_pedal", "decorative_flourish",
   "minimal_accents", "silence"]

/-- `isThematicPattern`: JS `patternType in thematicPatterns`.  The `in`
operator consults the prototype chain, so besides the five registered
names it is also true for every key the object literal inherits from
`Object.prototype` ("toString", "constructor", ...). -/
def isThematicPattern (patternType : String) : Bool :=
  thematicPatternNames.contains patternType ||
    objectPrototypeKeys.contains patternType

/-- `isSupportingPattern`: JS `patternType in supportingPatterns`, with
the same inherited `Object.prototype` keys. -/
def isSupportingPattern (patternType : String) : Bool :=
  supportingPatternNames.contains patternType ||
    objectPrototypeKeys.contains patternType

/-- `isValidPattern`: `patternType in thematicPatterns || patternType in
supportingPatterns`. -/
def isValidPattern (patternType : String) : Bool :=
  isThematicPattern patternType || isSupportingPattern patternType

/-! ## Orchestrator (`midi-factory.js`) -/

/-- A JS value sitting in a field the code treats as an array (`tracks`,
`sections`): `missing` is `undefined`/`null` (falsy, and `?.`
short-circuits on it), `arr` a real array, `notArr` any other truthy
value — not an array, so calling `.some` on it throws a TypeError. -/
inductive JsArrayField (α : Type) where
  | arr (l : List α)
  | missing
  | notArr
deriving Repr, DecidableEq

/-- An entry of a `sections` array: a section object, `null`/`undefined`
(reading `.pattern_type` on it throws), or some other primitive (its
`.pattern_type` reads as `undefined`). -/
inductive JsSectionVal where
  | sec (s : Section)
  | nullish
  | prim
deriving Repr, DecidableEq

/-- A track specification, with the field `validateSpec` reads. -/
structure TrackSpec where
  sections : JsArrayField JsSectionVal
deriving Repr, DecidableEq

/-- An entry of the `tracks` array: a track object, `null`/`undefined`
(reading `.sections` on it throws), or some other primitive (its
`.sections` reads as `undefined`, which `?.` then short-circuits). -/
inductive JsTrackVal where
  | track (t : TrackSpec)
  | nullish
  | prim
deriving Repr, DecidableEq

/-- The top-level `midi_spec` object, with the fields `validateSpec`
reads.  `tempo` and `themeDefinition` keep a typed model: the JS code
only compares `tempo` and reads properties of `themeDefinition`, and
neither comparison on a primitive nor property access on a non-null
value can throw (a truthy non-object `themeDefinition` reads `notes` and
`rhythm` as `undefined`, exactly `⟨none, none⟩`). -/
structure MidiSpec where
  tempo : Option ℚ
  tracks : JsArrayField JsTrackVal
  themeDefinition : Option Theme
deriving Repr, DecidableEq

/-- Result of `validateSpec`. -/
structure ValidationResult where
  isValid : Bool
  errors : List String
deriving Repr, DecidableEq

/-- The inner `sections.some(section => isThematicPattern(section.pattern_type))`
scan of `validateSpec`, left to right with JS `some` short-circuiting:
a `null`/`undefined` entry throws on reading `.pattern_type`; another
primitive entry reads it as `undefined`, which is neither a registered
nor an inherited key. -/
def someThematicSections : List JsSectionVal → Except String Bool
  | [] => .ok false
  | .nullish :: _ =>
      .error "TypeError: cannot read properties of null (reading pattern_type)"
  | .prim :: rest => someThematicSections rest
  | .sec s :: rest =>
      if isThematicPattern (s.pattern_type.getD "") then .ok true
      else someThematicSections rest

/-- One track's `track.sections?.some(...)` inside the tracks scan. -/
def trackThematic : JsTrackVal → Except String Bool
  | .nullish =>
      .error "TypeError: cannot read properties of null (reading sections)"
  | .prim => .ok false
  | .track tr =>
      match tr.sections with
      | .missing => .ok false
      | .notArr => .error "TypeError: track.sections.some is not a function"
      | .arr ss => someThematicSections ss

/-- The outer `tracks.some(track => ...)` scan, short-circuiting on the
first thematic track and propagating the first throw. -/
def someThematicTracks : List JsTrackVal → Except String Bool
  | [] => .ok false
  | t :: rest =>
      match trackThematic t with
      | .error e => .error e
      | .ok true => .ok true
      | .ok false => someThematicTracks rest

/-- `spec.tracks?.some(track => track.sections?.some(...))`: `?.`
short-circuits a missing `tracks`, a truthy non-array throws because
`.some` is not a function. -/
def hasThematicPatternsE : JsArrayField JsTrackVal → Except String Bool
  | .missing => .ok false
  | .notArr => .error "TypeError: spec.tracks.some is not a function"
  | .arr l => someThematicTracks l

/-- `validateSpec` from `midi-factory.js`.  `none` models a
null/undefined specification (the early `!spec` return); JS `!tempo` is
true for an absent or zero tempo.  The function is NOT throw-free: the
`spec.tracks?.some(track => track.sections?.some(...))` scan throws a
TypeError when `tracks` (or a reached track's `sections`) is a truthy
non-array or a reached entry is `null`/`undefined` — modelled by the
`Except` error, which discards the errors already accumulated, as the JS
throw does. -/
def validateSpec : Option MidiSpec → Except String ValidationResult
  | none =>
      .ok { isValid := false, errors := ["Specification is null or undefined"] }
  | some spec => do
      let tempoFalsyOrBad : Bool :=
        match spec.tempo with
        | none => true
        | some t => t = 0 || t < 20 || t > 300
      let tempoErrors :=
        if tempoFalsyOrBad then ["Invalid or missing tempo (must be 20-300 BPM)"]
        else []
      let trackErrors :=
        match spec.tracks with
        | .arr l => if l.isEmpty then ["Missing or empty tracks array"] else []
        | _ => ["Missing or empty tracks array"]
      let hasThematicPatterns ← hasThematicPatternsE spec.tracks
      let themeMissingErrors :=
        if hasThematicPatterns ∧ spec.themeDefinition = none then
          ["Spec contains thematic patterns but no themeDefinition"]
        else []
      let themeShapeErrors :=
        match spec.themeDefinition with
        | none => []
        | some th =>
            (if th.notes = none then ["themeDefinition.notes must be an array"]
             else []) ++
            (if th.rhythm = none then ["themeDefinition.rhythm must be an array"]
             else []) ++
            (if th.notes.map List.length ≠ th.rhythm.map List.length then
              ["themeDefinition.notes and themeDefinition.rhythm must have same length"]
             else [])
      let errors := tempoErrors ++ trackErrors ++ themeMissingErrors ++ themeShapeErrors
      pure { isValid := errors.isEmpty, errors := errors }

/-- A `sections` entry the thematic scan traverses without throwing. -/
def sectionValOk : JsSectionVal → Bool
  | .nullish => false
  | _ => true

/-- A `tracks` entry the thematic scan traverses without throwing. -/
def trackValOk : JsTrackVal → Bool
  | .nullish => false
  | .prim => true
  | .track tr =>
      match tr.sections with
      | .notArr => false
      | .missing => true
      | .arr ss => ss.all sectionValOk

/-- A `tracks` field whose full thematic scan cannot throw. -/
def tracksFieldOk : JsArrayField JsTrackVal → Bool
  | .notArr => false
  | .missing => true
  | .arr l => l.all trackValOk

/-- What a pattern application observably does to the track: the notes it
added before returning or throwing, and the thrown message if any
(`addNote` calls made before a throw are kept, as in the mutable JS
track). -/
structure ApplyOutcome where
  notes : List Note
  thrown : Option String
deriving Repr, DecidableEq

/-- Inputs handed to a pattern's `apply` by `processSection` (the JS
options object; its `section` key is spelled `sect` here because
`section` is a Lean keyword). -/
structure ApplyCtx where
  sect : Section
  theme : Option Theme
  tempo : ℚ
  scale : List Int
  pitches : List Int

/-- A registry lookup: `getPattern` returns a handler or null.  The
orchestrator claims hold for every handler table, so `processSection` is
parameterized over it, mirroring the module boundary with
`pattern-registry.js`. -/
def GetPattern : Type := String → Option (ApplyCtx → ApplyOutcome)

/-- Result of processing one section (or a list of them): the notes added
to the track and the console warnings/errors recorded. -/
structure SectionResult where
  notes : List Note
  warnings : List String
deriving Repr, DecidableEq

/-- Fail-soft scale construction of `processSection`: on any
`noteToMidi`/`getScale` error, proceed with an empty scale and a
warning.  A falsy (absent or empty) `scale.type` defaults to major. -/
def buildScaleArr (s : Section) : List Int × List String :=
  match s.scale with
  | none => ([], [])
  | some sc =>
      match noteToMidi sc.root with
      | .error e => ([], ["Failed to build scale: " ++ e])
      | .ok rootMidi =>
          let scaleType :=
            match sc.type with
            | some t => if t = "" then "major" else t
            | none => "major"
          match getScale (NoteInput.num rootMidi) scaleType 4 with
          | .ok l => (l, [])
          | .error e => ([], ["Failed to build scale: " ++ e])

/-- Fail-soft pitch-pool construction of `processSection`: the scale is
passed along only when nonempty; on error, an empty pool and a warning. -/
def buildPitchesArr (s : Section) (scaleArr : List Int) : List Int × List String :=
  match s.pitch_range with
  | none => ([], [])
  | some pr =>
      match getPitchesInRange pr
        (if scaleArr.length > 0 then some scaleArr else none) with
      | .ok l => (l, [])
      | .error e => ([], ["Failed to get pitches in range: " ++ e])

/-- `processSection` from `midi-factory.js`: validate the pattern type,
the handler and the theme requirement (each failure skips the section
with a warning and zero notes), build scale and pitch pool fail-soft,
then apply the pattern, catching anything it throws. -/
def processSection (getP : GetPattern) (theme : Option Theme) (tempo : ℚ)
    (s : Section) : SectionResult :=
  match s.pattern_type with
  | none => { notes := [], warnings := ["Section missing pattern_type, skipping"] }
  | some pt =>
    if pt = "" then
      -- JS `if (!pattern_type)`: the empty string is falsy
      { notes := [], warnings := ["Section missing pattern_type, skipping"] }
    else if ¬ isValidPattern pt then
      { notes := [], warnings := ["Unknown pattern type, skipping"] }
    else
      match getP pt with
      | none =>
          { notes := [], warnings := ["Pattern handler is invalid, skipping"] }
      | some handler =>
        if isThematicPattern pt ∧ theme = none then
          { notes := [],
            warnings := ["Pattern requires a theme, but none provided. Skipping."] }
        else
          let scaleBuilt := buildScaleArr s
          let pitchesBuilt := buildPitchesArr s scaleBuilt.1
          let outcome := handler
            { sect := s, theme := theme, tempo := tempo,
              scale := scaleBuilt.1, pitches := pitchesBuilt.1 }
          { notes := outcome.notes,
            warnings := scaleBuilt.2 ++ pitchesBuilt.2 ++
              (match outcome.thrown with
               | some e => ["Error applying pattern: " ++ e]
               | none => []) }

/-- The per-track section walk of `processTrack` (`sections.forEach`):
every section is processed in order, results accumulated. -/
def processSections (getP : GetPattern) (theme : Option Theme) (tempo : ℚ) :
    List Section → SectionResult
  | [] => { notes := [], warnings := [] }
  | s :: rest =>
      let r := processSection getP theme tempo s
      let r2 := processSections getP theme tempo rest
      { notes := r.notes ++ r2.notes, warnings := r.warnings ++ r2.warnings }

/-! ## Claim theorems -/

/-- C9: for every section, `calculateLateEntryStart` returns
`start_time + (end_time - start_time) * clamp(late_entry, 0, 1)` (an
absent `late_entry` acting as 0), returns `start_time` unchanged when
`late_entry` is absent or ≤ 0, and in particular maps
`{start_time := 10, end_time := 20, late_entry := 0.5}` to 15. -/
theorem calculateLateEntryStart_spec :
    (∀ s : Section, calculateLateEntryStart s =
      s.start_time + (s.end_time - s.start_time) *
        (match s.late_entry with
         | none => 0
         | some le => min 1 (max 0 le))) ∧
    (∀ s : Section,
      (s.late_entry = none ∨ ∃ le, s.late_entry = some le ∧ le ≤ 0) →
      calculateLateEntryStart s = s.start_time) ∧
    calculateLateEntryStart ⟨10, 20, none, none, none, none, some 0.5, none⟩ = 15 := by
  refine ⟨?_, ?_, by norm_num [calculateLateEntryStart, min_def, max_def]⟩
  · intro s
    unfold calculateLateEntryStart
    cases h : s.late_entry with
    | none => simp
    | some le =>
        by_cases hle : le ≤ 0
        · have : max 0 le = 0 := by
            simp [max_eq_left hle]
          simp [hle, this]
        · simp [hle]
  · intro s h
    unfold calculateLateEntryStart
    rcases h with h | ⟨le, hle, hle0⟩
    · simp [h]
    · simp [hle, hle0]

/-- Closed instance of `calculateLateEntryStart_spec`: with `late_entry`
absent the start time is returned unchanged. -/
theorem calculateLateEntryStart_spec_witness :
    calculateLateEntryStart ⟨10, 20, none, none, none, none, none, none⟩ = 10 :=
  calculateLateEntryStart_spec.2.1 ⟨10, 20, none, none, none, none, none, none⟩
    (Or.inl rfl)

/-- C6: rendering a MIDI pitch as a note name and parsing it back is the
identity for every integer in [0,127] — checked by decision over all 128
pitches, including the negative-octave names — and the rendering is
scientific pitch notation (0 is "C-1", 60 is "C4", 127 is "G9"). -/
theorem noteToMidi_midiToNote_roundtrip :
    (∀ n : Int, 0 ≤ n → n ≤ 127 →
      (midiToNote n).bind (fun s => noteToMidi (NoteInput.str s)) =
        Except.ok n) ∧
    midiToNote 0 = Except.ok "C-1" ∧
    midiToNote 60 = Except.ok "C4" ∧
    midiToNote 127 = Except.ok "G9" := by
  refine ⟨?_, by decide, by decide, by decide⟩
  have hN : ∀ m : Nat, m < 128 →
      (midiToNote (Int.ofNat m)).bind (fun s => noteToMidi (NoteInput.str s)) =
        Except.ok (Int.ofNat m) := by decide
  intro n h0 h127
  obtain ⟨m, rfl⟩ := Int.eq_ofNat_of_zero_le h0
  exact hN m (by omega)

/-- Closed instance of the round trip at n = 60 (middle C). -/
theorem noteToMidi_midiToNote_roundtrip_witness :
    (midiToNote 60).bind (fun s => noteToMidi (NoteInput.str s)) =
      Except.ok 60 :=
  noteToMidi_midiToNote_roundtrip.1 60 (by decide) (by decide)

/-- The value of `getScale(60, "major")` (octaves defaulting to 4). -/
def majorScale60 : List Int :=
  [36, 38, 40, 41, 43, 45, 47, 48, 50, 52, 53, 55, 57, 59, 60, 62, 64, 65,
   67, 69, 71, 72, 74, 76, 77, 79, 81, 83, 84, 86, 88, 89, 91, 93, 95]

/-- C7 counterexample: not every unknown scale type defaults to major.
"constructor" is not a registered scale type, but
`SCALE_INTERVALS["constructor"]` finds the truthy inherited
`Object.prototype.constructor`, so `getScale(60, "constructor")` throws
at the `for..of` loop instead of returning the major scale. -/
theorem getScale_proto_key_cex :
    getScale (NoteInput.num 60) "constructor" 4 =
      Except.error "TypeError: intervals is not iterable" ∧
    getScale (NoteInput.num 60) "major" 4 = Except.ok majorScale60 ∧
    Except.error "TypeError: intervals is not iterable" ≠
      (Except.ok majorScale60 : Except String (List Int)) := by
  have hroot : noteToMidi (NoteInput.num 60) = Except.ok 60 := by
    norm_num [noteToMidi]
  refine ⟨?_, ?_, by decide⟩
  · unfold getScale
    rw [hroot]
    rfl
  · unfold getScale
    rw [hroot]
    set_option maxRecDepth 100000 in decide

/-- C7 amended: `getScale(60, "major")` contains only pitches congruent
mod 12 to {0, 2, 4, 5, 7, 9, 11} relative to 60, strictly ascending
(hence without duplicates), all within [0,127]; for every root, a scale
type whose lookup is undefined (any string that is neither a registered
type nor an inherited `Object.prototype` key) behaves exactly like
"major"; and a scale type naming an inherited `Object.prototype` key
throws a TypeError once the root has resolved. -/
theorem getScale_major_spec :
    (∃ l, getScale (NoteInput.num 60) "major" 4 = Except.ok l ∧
      (∀ p ∈ l, 0 ≤ p ∧ p ≤ 127 ∧
        (p - 60).emod 12 ∈ ([0, 2, 4, 5, 7, 9, 11] : List Int)) ∧
      l.Pairwise (· < ·)) ∧
    (∀ (root : NoteInput) (scaleType : String) (octaves : Nat),
      SCALE_INTERVALS scaleType = ScaleLookup.notDefined →
      getScale root scaleType octaves = getScale root "major" octaves) ∧
    (∀ (root : NoteInput) (scaleType : String) (octaves : Nat) (rootMidi : Int),
      SCALE_INTERVALS scaleType = ScaleLookup.protoProp →
      noteToMidi root = Except.ok rootMidi →
      getScale root scaleType octaves =
        Except.error "TypeError: intervals is not iterable") := by
  refine ⟨?_, ?_, ?_⟩
  · refine ⟨majorScale60, ?_, by decide, by decide⟩
    have hroot : noteToMidi (NoteInput.num 60) = Except.ok 60 := by
      norm_num [noteToMidi]
    unfold getScale
    rw [hroot]
    set_option maxRecDepth 100000 in decide
  · intro root scaleType octaves h
    unfold getScale
    rw [h]
    rfl
  · intro root scaleType octaves rootMidi h hroot
    unfold getScale
    rw [h, hroot]
    rfl

/-- Closed instance of `getScale_major_spec`: the undefined scale type
"qwerty" behaves exactly like "major". -/
theorem getScale_major_spec_witness :
    getScale (NoteInput.num 60) "qwerty" 4 = getScale (NoteInput.num 60) "major" 4 :=
  getScale_major_spec.2.1 (NoteInput.num 60) "qwerty" 4 (by decide)

/-- C3 counterexample: for the theme `{notes: [60,62,64], rhythm: [1,1,1]}`
at tempo 120 over the section [0, 1.5], the thematic statement pattern
emits three notes, not two: the third note starts at 1.0 and ends at
1.0 + 0.475 = 1.475 ≤ 1.5, so the guard does not exclude it. -/
theorem statement_three_notes_cex :
    (applyStatement (some ⟨some [60, 62, 64], some [1, 1, 1]⟩)
        ⟨0, 1.5, some "thematic_statement", none, none, none, none, none⟩ 120).map
      List.length = Except.ok 3 := by
  norm_num [applyStatement, guardedThemeLoop, calculateLateEntryStart,
    applyVelocityModifier, PS.thematic_statement_durationFactor,
    PS.thematic_statement_velocityModifier, min_def, max_def, Except.map]

/-- C3 amended: the same input emits exactly three notes, at times 0, 0.5
and 1.0, each with duration 0.475 and velocity 80/127 (the third note ends
at 1.475, inside the section). -/
theorem statement_concrete_output :
    applyStatement (some ⟨some [60, 62, 64], some [1, 1, 1]⟩)
        ⟨0, 1.5, some "thematic_statement", none, none, none, none, none⟩ 120 =
      Except.ok [⟨60, 0, 0.475, 80 / 127⟩, ⟨62, 0.5, 0.475, 80 / 127⟩,
        ⟨64, 1, 0.475, 80 / 127⟩] := by
  norm_num [applyStatement, guardedThemeLoop, calculateLateEntryStart,
    applyVelocityModifier, PS.thematic_statement_durationFactor,
    PS.thematic_statement_velocityModifier, min_def, max_def]

/-- Every note the guarded theme loop emits ends at or before `end_time`:
the emission branch is only taken when the scaled duration fits. -/
theorem guardedThemeLoop_bound (qn df endT vel : ℚ) :
    ∀ (ns : List Int) (rs : List ℚ) (t : ℚ) (n : Note),
      n ∈ guardedThemeLoop qn df endT vel ns rs t → n.time + n.duration ≤ endT := by
  intro ns
  induction ns with
  | nil => intro rs t n h; simp [guardedThemeLoop] at h
  | cons p rest ih =>
      intro rs t n h
      simp only [guardedThemeLoop] at h
      set b : ℚ := (if rs.headD 0 = 0 then 1 else rs.headD 0) with hb
      split at h
      · exact ih _ _ _ h
      · rename_i hc
        push_neg at hc
        rcases List.mem_cons.mp h with rfl | h2
        · simpa using hc
        · exact ih _ _ _ h2

/-- Shifting the accumulator out of the rhythm-sum fold. -/
theorem foldl_mul_add_shift (qn : ℚ) :
    ∀ (rs : List ℚ) (a : ℚ),
      rs.foldl (fun sum r => sum + r * qn) a =
        a + rs.foldl (fun sum r => sum + r * qn) 0 := by
  intro rs
  induction rs with
  | nil => intro a; simp
  | cons r rest ih =>
      intro a
      simp only [List.foldl_cons]
      rw [ih (a + r * qn), ih (0 + r * qn)]
      ring

/-- With nonnegative rhythm values, a nonnegative quarter note and a
duration factor in [0,1], the fragment clock never moves backwards and
every emitted note ends at or before the fragment's final time. -/
theorem playFragment_time_bounds (trans : Int) (qn df vel : ℚ)
    (hdf0 : 0 ≤ df) (hdf1 : df ≤ 1) (hqn : 0 ≤ qn) :
    ∀ (ns : List Int) (rs : List ℚ) (t : ℚ),
      (∀ r ∈ rs, 0 ≤ r) →
      t ≤ (playFragment trans qn df vel ns rs t).2 ∧
      (∀ n ∈ (playFragment trans qn df vel ns rs t).1,
        n.time + n.duration ≤ (playFragment trans qn df vel ns rs t).2) := by
  intro ns
  induction ns with
  | nil => intro rs t hrs; simp [playFragment]
  | cons p rest ih =>
      intro rs t hrs
      have htail : ∀ r ∈ rs.tail, 0 ≤ r := fun r hr =>
        hrs r (List.mem_of_mem_tail hr)
      simp only [playFragment]
      set b : ℚ := (if rs.headD 0 = 0 then 1 else rs.headD 0) with hb
      have hbeat : 0 ≤ b := by
        rw [hb]
        split
        · norm_num
        · rename_i hr0
          cases rs with
          | nil => simp at hr0
          | cons r rs' => exact hrs r (List.mem_cons_self r rs')
      have hdur : 0 ≤ b * qn := mul_nonneg hbeat hqn
      have ihx := ih rs.tail (t + b * qn) htail
      split
      · refine ⟨by linarith [ihx.1], ?_⟩
        intro n hn
        rcases List.mem_cons.mp hn with rfl | h2
        · simp only
          have hdd : b * qn * df ≤ b * qn := by nlinarith
          linarith [ihx.1]
        · exact ihx.2 n h2
      · exact ⟨by linarith [ihx.1], ihx.2⟩

/-- When the fragment's pitch list and rhythm list have the same length
and no rhythm value is zero (so the `|| 1` fallback never fires), one
fragment playback advances the clock by exactly the fragment duration the
repetition loop compares against, whatever the transposition drops. -/
theorem playFragment_snd_eq (trans : Int) (qn df vel : ℚ) :
    ∀ (ns : List Int) (rs : List ℚ) (t : ℚ),
      ns.length = rs.length → (∀ r ∈ rs, r ≠ 0) →
      (playFragment trans qn df vel ns rs t).2 =
        t + rs.foldl (fun sum r => sum + r * qn) 0 := by
  intro ns
  induction ns with
  | nil =>
      intro rs t hlen _
      cases rs with
      | nil => simp [playFragment]
      | cons r rs' => simp at hlen
  | cons p rest ih =>
      intro rs t hlen hnz
      cases rs with
      | nil => simp at hlen
      | cons r rs' =>
          have hr : r ≠ 0 := hnz r (List.mem_cons_self r rs')
          have hlen' : rest.length = rs'.length := by simpa using hlen
          have hnz' : ∀ x ∈ rs', x ≠ 0 := fun x hx => hnz x (List.mem_cons_of_mem r hx)
          simp only [playFragment, List.headD_cons, List.tail_cons, if_neg hr]
          split
          · simp only
            rw [ih rs' (t + r * qn) hlen' hnz']
            rw [List.foldl_cons, foldl_mul_add_shift qn rs' (0 + r * qn)]
            ring
          · rw [ih rs' (t + r * qn) hlen' hnz']
            rw [List.foldl_cons, foldl_mul_add_shift qn rs' (0 + r * qn)]
            ring

/-- Every note the fragmented repetition loop emits ends at or before
`end_time`, given positive rhythm values, matching fragment lengths, a
nonnegative quarter note and a duration factor in [0,1]. -/
theorem fragmentedLoop_bound (fragNotes : List Int) (fragRhythm : List ℚ)
    (seqb : Bool) (seqInterval : Int) (qn df fragDur endT vel : ℚ)
    (hdf0 : 0 ≤ df) (hdf1 : df ≤ 1) (hqn : 0 ≤ qn)
    (hlen : fragNotes.length = fragRhythm.length)
    (hpos : ∀ r ∈ fragRhythm, 0 < r)
    (hfd : fragDur = fragRhythm.foldl (fun sum r => sum + r * qn) 0) :
    ∀ (fuel : Nat) (t : ℚ) (rep : Nat) (n : Note),
      n ∈ fragmentedLoop fragNotes fragRhythm seqb seqInterval qn df fragDur
            endT vel fuel t rep →
      n.time + n.duration ≤ endT := by
  intro fuel
  induction fuel with
  | zero => intro t rep n h; simp [fragmentedLoop] at h
  | succ f ih =>
      intro t rep n h
      simp only [fragmentedLoop] at h
      split at h
      · rename_i hcond
        rcases List.mem_append.mp h with h1 | h2
        · have hnn : ∀ r ∈ fragRhythm, 0 ≤ r := fun r hr => le_of_lt (hpos r hr)
          have hb := (playFragment_time_bounds _ qn df vel hdf0 hdf1 hqn
            fragNotes fragRhythm t hnn).2 n h1
          have hsnd := playFragment_snd_eq
            (if seqb = true then (rep : Int) * seqInterval else 0) qn df vel
            fragNotes fragRhythm t hlen (fun r hr => ne_of_gt (hpos r hr))
          rw [hsnd] at hb
          rw [hfd] at hcond
          linarith
        · exact ih _ _ _ h2
      · simp at h

/-- C1 counterexample: the thematic extended pattern's theme playback has
no end-of-section guard.  With theme `{notes: [60], rhythm: [1]}` at tempo
60 over the section [0, 0.5] it emits a note spanning [0, 0.95], past
`end_time = 0.5`. -/
theorem extended_overruns_end_time_cex :
    applyExtended (some ⟨some [60], some [1]⟩)
        ⟨0, 0.5, some "thematic_extended", none, none, none, none, none⟩ 60 [] 5 =
      Except.ok [⟨60, 0, 0.95, 80 / 127⟩] ∧
    ((0 : ℚ) + 0.95 > 0.5) := by
  constructor
  · norm_num [applyExtended, unguardedThemeLoop, extendedLoop, getContourDirection,
      LEGATO_DURATION_FACTOR]
  · norm_num

/-- C1 amended: the boundary invariant holds for the algorithms that carry
the end-of-section guard — thematic statement, retrograde (config
variants) and fragmented (under positive rhythm values and tempo) — while
the thematic extended theme playback (see the counterexample) and the
foundation pedal's 0.1 s minimum duration can overrun the boundary. -/
theorem guarded_patterns_respect_end_time :
    (∀ themeOpt s tempo l n,
      applyStatement themeOpt s tempo = Except.ok l → n ∈ l →
      n.time + n.duration ≤ s.end_time) ∧
    (∀ themeOpt s tempo l n,
      applyRetrograde themeOpt s tempo = Except.ok l → n ∈ l →
      n.time + n.duration ≤ s.end_time) ∧
    (∀ notes rhythm s tempo fuel l n, (0 : ℚ) < tempo →
      (∀ r ∈ rhythm, (0 : ℚ) < r) → 3 ≤ rhythm.length →
      applyFragmented (some ⟨some notes, some rhythm⟩) s tempo fuel = Except.ok l →
      n ∈ l → n.time + n.duration ≤ s.end_time) := by
  refine ⟨?_, ?_, ?_⟩
  · intro th s tempo l n happ hn
    match th with
    | none => simp [applyStatement] at happ
    | some ⟨none, tr⟩ => simp [applyStatement] at happ
    | some ⟨some notes, none⟩ => simp [applyStatement] at happ
    | some ⟨some notes, some rhythm⟩ =>
        simp only [applyStatement, Except.ok.injEq] at happ
        subst happ
        exact guardedThemeLoop_bound _ _ _ _ _ _ _ n hn
  · intro th s tempo l n happ hn
    match th with
    | none => simp [applyRetrograde] at happ
    | some ⟨none, tr⟩ => simp [applyRetrograde] at happ
    | some ⟨some notes, none⟩ => simp [applyRetrograde] at happ
    | some ⟨some notes, some rhythm⟩ =>
        simp only [applyRetrograde, Except.ok.injEq] at happ
        subst happ
        exact guardedThemeLoop_bound _ _ _ _ _ _ _ n hn
  · intro notes rhythm s tempo fuel l n htempo hpos hlen3 happ hn
    simp only [applyFragmented] at happ
    split at happ
    · simp at happ
    · rename_i hnlt
      simp only [Except.ok.injEq] at happ
      subst happ
      have hqn : (0 : ℚ) ≤ 60 / tempo := le_of_lt (by positivity)
      have hdf0 : (0 : ℚ) ≤ PS.thematic_fragmented_durationFactor := by
        norm_num [PS.thematic_fragmented_durationFactor]
      have hdf1 : PS.thematic_fragmented_durationFactor ≤ 1 := by
        norm_num [PS.thematic_fragmented_durationFactor]
      have hnot : ¬ (notes.length < PS.thematic_fragmented_fragmentLength) := hnlt
      have hlen : (notes.take PS.thematic_fragmented_fragmentLength).length =
          (rhythm.take PS.thematic_fragmented_fragmentLength).length := by
        simp only [List.length_take]
        simp only [PS.thematic_fragmented_fragmentLength] at hnot ⊢
        omega
      have hposTake : ∀ r ∈ rhythm.take PS.thematic_fragmented_fragmentLength,
          (0 : ℚ) < r := fun r hr => hpos r (List.take_subset _ _ hr)
      exact fragmentedLoop_bound _ _ _ _ _ _ _ _ _ hdf0 hdf1 hqn hlen hposTake rfl
        fuel _ 0 n hn

/-- Closed instance of `guarded_patterns_respect_end_time`: the statement
pattern's single emitted note over [0, 10] ends inside the section. -/
theorem guarded_patterns_respect_end_time_witness :
    (⟨60, 0, 0.95, 80 / 127⟩ : Note).time +
      (⟨60, 0, 0.95, 80 / 127⟩ : Note).duration ≤ (10 : ℚ) :=
  guarded_patterns_respect_end_time.1 (some ⟨some [60], some [1]⟩)
    ⟨0, 10, none, none, none, none, none, none⟩ 60 [⟨60, 0, 0.95, 80 / 127⟩]
    ⟨60, 0, 0.95, 80 / 127⟩
    (by norm_num [applyStatement, guardedThemeLoop, calculateLateEntryStart,
      applyVelocityModifier, PS.thematic_statement_durationFactor,
      PS.thematic_statement_velocityModifier, min_def, max_def])
    (by simp)

/-- The pitches one fragment playback emits are exactly the fragment's
pitches transposed, with those leaving [0,127] dropped. -/
theorem playFragment_map_midi (trans : Int) (qn df vel : ℚ) :
    ∀ (ns : List Int) (rs : List ℚ) (t : ℚ),
      (playFragment trans qn df vel ns rs t).1.map Note.midi =
        (ns.map (fun p => p + trans)).filter (fun p => decide (0 ≤ p ∧ p ≤ 127)) := by
  intro ns
  induction ns with
  | nil => intro rs t; simp [playFragment]
  | cons p rest ih =>
      intro rs t
      simp only [playFragment, List.map_cons, List.filter_cons]
      split
      · rename_i h
        simp only [List.map_cons, ih]
        simp [h]
      · rename_i h
        simp only [ih]
        simp [h]

/-- The clock advance of one fragment playback does not depend on the
transposition: dropped out-of-range notes still advance time. -/
theorem playFragment_snd_trans_invariant (qn df vel : ℚ) :
    ∀ (ns : List Int) (rs : List ℚ) (t : ℚ) (trans trans' : Int),
      (playFragment trans qn df vel ns rs t).2 =
        (playFragment trans' qn df vel ns rs t).2 := by
  intro ns
  induction ns with
  | nil => intro rs t trans trans'; simp [playFragment]
  | cons p rest ih =>
      intro rs t trans trans'
      simp only [playFragment, apply_ite Prod.snd, ite_self]
      exact ih _ _ _ _

/-- The repetition loop emits nothing once a further whole fragment no
longer fits. -/
theorem fragmentedLoop_stop (fragNotes : List Int) (fragRhythm : List ℚ)
    (seqb : Bool) (seqInterval : Int) (qn df fragDur endT vel : ℚ) :
    ∀ (fuel : Nat) (t : ℚ) (rep : Nat), endT < t + fragDur →
      fragmentedLoop fragNotes fragRhythm seqb seqInterval qn df fragDur
        endT vel fuel t rep = [] := by
  intro fuel t rep h
  cases fuel with
  | zero => rfl
  | succ f =>
      simp only [fragmentedLoop]
      rw [if_neg (by linarith)]

/-- One unfolding of the repetition loop while a whole fragment still
fits: repetition `rep` plays the fragment transposed by
`rep * sequenceInterval` (when sequencing) and recurses at the advanced
clock. -/
theorem fragmentedLoop_step (fragNotes : List Int) (fragRhythm : List ℚ)
    (seqb : Bool) (seqInterval : Int) (qn df fragDur endT vel : ℚ)
    (f : Nat) (t : ℚ) (rep : Nat) (h : t + fragDur ≤ endT) :
    fragmentedLoop fragNotes fragRhythm seqb seqInterval qn df fragDur
        endT vel (f + 1) t rep =
      (playFragment (if seqb = true then (rep : Int) * seqInterval else 0)
        qn df vel fragNotes fragRhythm t).1 ++
      fragmentedLoop fragNotes fragRhythm seqb seqInterval qn df fragDur endT vel f
        (playFragment (if seqb = true then (rep : Int) * seqInterval else 0)
          qn df vel fragNotes fragRhythm t).2 (rep + 1) := by
  simp only [fragmentedLoop]
  rw [if_pos h]

/-- C8: for the thematic fragmented pattern with `sequence = true`
(configured fragment length 3, interval 2): repetition `k` emits the
fragment's pitches transposed by `k * 2` with out-of-range pitches
dropped while time still advances, so in a section fitting exactly two
repetitions the output pitches are the fragment followed by the fragment
transposed up 2 semitones. -/
theorem fragmented_sequence_transposition :
    (∀ (trans : Int) (qn df vel : ℚ) (ns : List Int) (rs : List ℚ) (t : ℚ),
      (playFragment trans qn df vel ns rs t).1.map Note.midi =
        (ns.map (fun p => p + trans)).filter (fun p => decide (0 ≤ p ∧ p ≤ 127))) ∧
    (∀ (qn df vel : ℚ) (ns : List Int) (rs : List ℚ) (t : ℚ) (trans trans' : Int),
      (playFragment trans qn df vel ns rs t).2 =
        (playFragment trans' qn df vel ns rs t).2) ∧
    (∀ (notes : List Int) (rhythm : List ℚ) (s : Section) (tempo : ℚ) (fuel : Nat),
      (0 : ℚ) < tempo → (∀ r ∈ rhythm, (0 : ℚ) < r) →
      3 ≤ rhythm.length → 3 ≤ notes.length →
      s.sequence = some true →
      calculateLateEntryStart s +
          2 * ((rhythm.take 3).foldl (fun sum r => sum + r * (60 / tempo)) 0) ≤
        s.end_time →
      s.end_time < calculateLateEntryStart s +
          3 * ((rhythm.take 3).foldl (fun sum r => sum + r * (60 / tempo)) 0) →
      (applyFragmented (some ⟨some notes, some rhythm⟩) s tempo (fuel + 2)).map
          (List.map Note.midi) =
        Except.ok
          (((notes.take 3).filter (fun p => decide (0 ≤ p ∧ p ≤ 127))) ++
            ((notes.take 3).map (fun p => p + 2)).filter
              (fun p => decide (0 ≤ p ∧ p ≤ 127)))) := by
  refine ⟨playFragment_map_midi, playFragment_snd_trans_invariant, ?_⟩
  intro notes rhythm s tempo fuel htempo hpos hrlen hnlen hseq hfit1 hfit2
  have h3 : ¬ (notes.length < 3) := by omega
  have hfrag3 : PS.thematic_fragmented_fragmentLength = 3 := rfl
  set qn : ℚ := 60 / tempo with hqn
  set fragDur : ℚ := (rhythm.take 3).foldl (fun sum r => sum + r * qn) 0 with hfd
  have hdpos : 0 < fragDur := by linarith
  have hlen : (notes.take 3).length = (rhythm.take 3).length := by
    simp only [List.length_take]
    omega
  have hnz : ∀ r ∈ rhythm.take 3, r ≠ 0 := fun r hr =>
    ne_of_gt (hpos r (List.take_subset _ _ hr))
  simp only [applyFragmented, hfrag3, hseq, Option.getD_some, ← hqn, ← hfd]
  rw [if_neg h3]
  set t0 : ℚ := calculateLateEntryStart s with ht0
  rw [fragmentedLoop_step _ _ _ _ _ _ _ _ _ (fuel + 1) t0 0 (by linarith)]
  rw [playFragment_snd_eq _ _ _ _ _ _ _ hlen hnz, ← hfd]
  rw [fragmentedLoop_step _ _ _ _ _ _ _ _ _ fuel (t0 + fragDur) 1 (by linarith)]
  rw [playFragment_snd_eq _ _ _ _ _ _ _ hlen hnz, ← hfd]
  rw [fragmentedLoop_stop _ _ _ _ _ _ _ _ _ fuel (t0 + fragDur + fragDur) 2
    (by linarith)]
  simp only [List.append_nil, Except.map, List.map_append, playFragment_map_midi]
  norm_num [PS.thematic_fragmented_sequenceInterval]

/-- Closed instance of `fragmented_sequence_transposition`: theme
`[60,62,64]` over `[0, 3.2]` at tempo 120 yields the fragment and then
the fragment up 2 semitones. -/
theorem fragmented_sequence_transposition_witness :
    (applyFragmented (some ⟨some [60, 62, 64], some [1, 1, 1]⟩)
        ⟨0, 3.2, some "thematic_fragmented", none, none, none, none, some true⟩
        120 2).map (List.map Note.midi) =
      Except.ok
        ((([60, 62, 64] : List Int).map (fun p => p + 0)).filter
            (fun p => decide (0 ≤ p ∧ p ≤ 127)) ++
          (([60, 62, 64] : List Int).map (fun p => p + 2)).filter
            (fun p => decide (0 ≤ p ∧ p ≤ 127))) := by
  have h := fragmented_sequence_transposition.2.2 [60, 62, 64] [1, 1, 1]
    ⟨0, 3.2, some "thematic_fragmented", none, none, none, none, some true⟩ 120 0
    (by norm_num) (by norm_num) (by norm_num) (by norm_num) rfl
    (by norm_num [calculateLateEntryStart, List.foldl_cons, List.foldl_nil])
    (by norm_num [calculateLateEntryStart, List.foldl_cons, List.foldl_nil])
  simpa using h

/-- C10 amended: whenever the pitch pool is nonempty or `pitch_range` is
absent, both foundation pedal variants emit exactly one note with
duration at least 0.1 s; with pool, range and scale all empty/absent the
pitch falls back to MIDI 36.  (With an empty pool and a present but
invalid `pitch_range.low` the pattern instead throws - see the
counterexample.) -/
theorem foundation_pedal_one_note :
    ∀ (s : Section) (scale pitches : List Int),
      (pitches ≠ [] ∨ s.pitch_range = none) →
      ∃ n1 n2,
        applyFoundationPedalCfg s scale pitches = Except.ok [n1] ∧
        applyFoundationPedalV2 s scale pitches = Except.ok [n2] ∧
        (0.1 : ℚ) ≤ n1.duration ∧ (0.1 : ℚ) ≤ n2.duration ∧
        (pitches = [] → scale = [] → n1.midi = 36 ∧ n2.midi = 36) := by
  intro s scale pitches h
  by_cases hp : pitches = []
  · have hpr : s.pitch_range = none := by
      rcases h with h | h
      · exact absurd hp h
      · exact h
    subst hp
    by_cases hs : scale = []
    · subst hs
      refine ⟨⟨36, calculateLateEntryStart s,
          max 0.1 (s.end_time - calculateLateEntryStart s - PS.foundation_pedal_sustainGap),
          applyVelocityModifier (s.velocity_avg.getD 80) PS.foundation_pedal_velocityModifier / 127⟩,
        ⟨36, s.start_time, max 0.1 (s.end_time - s.start_time - 0.05),
          max 15 (s.velocity_avg.getD 80 - 20) / 127⟩, ?_, ?_, le_max_left _ _, le_max_left _ _,
        fun _ _ => ⟨rfl, rfl⟩⟩
      · simp [applyFoundationPedalCfg, hpr, Except.bind, pure, Except.pure]
        rfl
      · simp [applyFoundationPedalV2, hpr, Except.bind, pure, Except.pure]
        rfl
    · have hs' : scale.length > 0 := List.length_pos.mpr hs
      refine ⟨⟨scale.headD 0, calculateLateEntryStart s,
          max 0.1 (s.end_time - calculateLateEntryStart s - PS.foundation_pedal_sustainGap),
          applyVelocityModifier (s.velocity_avg.getD 80) PS.foundation_pedal_velocityModifier / 127⟩,
        ⟨scale.headD 0, s.start_time, max 0.1 (s.end_time - s.start_time - 0.05),
          max 15 (s.velocity_avg.getD 80 - 20) / 127⟩, ?_, ?_, le_max_left _ _, le_max_left _ _,
        fun _ habs => absurd habs hs⟩
      · simp [applyFoundationPedalCfg, hpr, hs', Except.bind, pure, Except.pure]
        rfl
      · simp [applyFoundationPedalV2, hpr, hs', Except.bind, pure, Except.pure]
        rfl
  · have hp' : pitches.length > 0 := List.length_pos.mpr hp
    refine ⟨⟨pitches.getD (max 0
          ⌊(pitches.length : ℚ) * PS.foundation_pedal_quartilePosition⌋).toNat 0,
        calculateLateEntryStart s,
        max 0.1 (s.end_time - calculateLateEntryStart s - PS.foundation_pedal_sustainGap),
        applyVelocityModifier (s.velocity_avg.getD 80) PS.foundation_pedal_velocityModifier / 127⟩,
      ⟨pitches.getD (max 0 ((pitches.length : Int) / 4)).toNat 0, s.start_time,
        max 0.1 (s.end_time - s.start_time - 0.05),
        max 15 (s.velocity_avg.getD 80 - 20) / 127⟩, ?_, ?_, le_max_left _ _, le_max_left _ _,
      fun habs _ => absurd habs hp⟩
    · simp [applyFoundationPedalCfg, hp', Except.bind, pure, Except.pure]
      rfl
    · simp [applyFoundationPedalV2, hp', Except.bind, pure, Except.pure]
      rfl

/-- C10 counterexample: with an empty pitch pool and a `pitch_range` whose
`low` is the out-of-range number 200 (reachable, since the orchestrator
fail-softs `getPitchesInRange` errors into an empty pool but passes the
section through), the foundation pedal throws instead of emitting its one
note. -/
theorem foundation_pedal_throws_cex :
    applyFoundationPedalCfg
        ⟨0, 4, some "foundation_pedal", none, none,
          some ⟨NoteInput.num 200, NoteInput.num 300⟩, none, none⟩ [] [] =
      Except.error "MIDI note number must be 0-127" := by
  norm_num [applyFoundationPedalCfg, noteToMidi, Except.bind]

/-- Closed instance of `foundation_pedal_one_note`: pool, range and scale
all empty. -/
theorem foundation_pedal_one_note_witness :
    ∃ n1 n2,
      applyFoundationPedalCfg
          ⟨0, 4, some "foundation_pedal", none, none, none, none, none⟩ [] [] =
        Except.ok [n1] ∧
      applyFoundationPedalV2
          ⟨0, 4, some "foundation_pedal", none, none, none, none, none⟩ [] [] =
        Except.ok [n2] ∧
      (0.1 : ℚ) ≤ n1.duration ∧ (0.1 : ℚ) ≤ n2.duration ∧
      (([] : List Int) = [] → ([] : List Int) = [] → n1.midi = 36 ∧ n2.midi = 36) :=
  foundation_pedal_one_note
    ⟨0, 4, some "foundation_pedal", none, none, none, none, none⟩ [] [] (Or.inr rfl)

/-- Traversing a well-formed sections array never throws. -/
theorem someThematicSections_ok :
    ∀ ss : List JsSectionVal, ss.all sectionValOk = true →
      ∃ b, someThematicSections ss = Except.ok b := by
  intro ss
  induction ss with
  | nil => intro _; exact ⟨false, rfl⟩
  | cons e rest ih =>
      intro hall
      simp only [List.all_cons, Bool.and_eq_true] at hall
      cases e with
      | nullish => simp [sectionValOk] at hall
      | prim => exact ih hall.2
      | sec s =>
          by_cases h : isThematicPattern (s.pattern_type.getD "") = true
          · exact ⟨true, by simp [someThematicSections, h]⟩
          · obtain ⟨b, hb⟩ := ih hall.2
            refine ⟨b, ?_⟩
            simp only [someThematicSections]
            rw [if_neg h]
            exact hb

/-- Traversing a well-formed track entry never throws. -/
theorem trackThematic_ok :
    ∀ t : JsTrackVal, trackValOk t = true →
      ∃ b, trackThematic t = Except.ok b := by
  intro t h
  cases t with
  | nullish => simp [trackValOk] at h
  | prim => exact ⟨false, rfl⟩
  | track tr =>
      cases htr : tr.sections with
      | missing => exact ⟨false, by simp [trackThematic, htr]⟩
      | notArr => simp [trackValOk, htr] at h
      | arr ss =>
          have hss : ss.all sectionValOk = true := by
            simpa [trackValOk, htr] using h
          obtain ⟨b, hb⟩ := someThematicSections_ok ss hss
          exact ⟨b, by simp [trackThematic, htr, hb]⟩

/-- Traversing a well-formed tracks list never throws. -/
theorem someThematicTracks_ok :
    ∀ l : List JsTrackVal, l.all trackValOk = true →
      ∃ b, someThematicTracks l = Except.ok b := by
  intro l
  induction l with
  | nil => intro _; exact ⟨false, rfl⟩
  | cons t rest ih =>
      intro hall
      simp only [List.all_cons, Bool.and_eq_true] at hall
      obtain ⟨b, hb⟩ := trackThematic_ok t hall.1
      cases b with
      | true => exact ⟨true, by simp [someThematicTracks, hb]⟩
      | false =>
          obtain ⟨b2, h2⟩ := ih hall.2
          exact ⟨b2, by simp [someThematicTracks, hb, h2]⟩

/-- The whole thematic scan never throws on a well-formed tracks field. -/
theorem hasThematicPatternsE_ok :
    ∀ tf : JsArrayField JsTrackVal, tracksFieldOk tf = true →
      ∃ b, hasThematicPatternsE tf = Except.ok b := by
  intro tf h
  cases tf with
  | missing => exact ⟨false, rfl⟩
  | notArr => simp [tracksFieldOk] at h
  | arr l => exact someThematicTracks_ok l (by simpa [tracksFieldOk] using h)

/-- A thematic section in a well-formed sections array makes the inner
scan report true. -/
theorem someThematicSections_finds :
    ∀ (ss : List JsSectionVal) (s : Section),
      JsSectionVal.sec s ∈ ss → ss.all sectionValOk = true →
      isThematicPattern (s.pattern_type.getD "") = true →
      someThematicSections ss = Except.ok true := by
  intro ss
  induction ss with
  | nil => intro s hmem _ _; simp at hmem
  | cons e rest ih =>
      intro s hmem hall hthm
      simp only [List.all_cons, Bool.and_eq_true] at hall
      cases e with
      | nullish => simp [sectionValOk] at hall
      | prim =>
          have hmem2 : JsSectionVal.sec s ∈ rest := by
            rcases List.mem_cons.mp hmem with h | h
            · simp at h
            · exact h
          exact ih s hmem2 hall.2 hthm
      | sec s2 =>
          by_cases h : isThematicPattern (s2.pattern_type.getD "") = true
          · simp [someThematicSections, h]
          · rcases List.mem_cons.mp hmem with heq | hmem2
            · injection heq with heq2
              subst heq2
              exact absurd hthm h
            · have := ih s hmem2 hall.2 hthm
              simpa [someThematicSections, h] using this

/-- A track whose scan reports true makes the outer scan of a well-formed
tracks list report true. -/
theorem someThematicTracks_finds :
    ∀ (l : List JsTrackVal) (tr : TrackSpec),
      JsTrackVal.track tr ∈ l → l.all trackValOk = true →
      trackThematic (JsTrackVal.track tr) = Except.ok true →
      someThematicTracks l = Except.ok true := by
  intro l
  induction l with
  | nil => intro tr hmem _ _; simp at hmem
  | cons t rest ih =>
      intro tr hmem hall htt
      simp only [List.all_cons, Bool.and_eq_true] at hall
      rcases List.mem_cons.mp hmem with heq | hmem2
      · subst heq
        simp [someThematicTracks, htt]
      · obtain ⟨b, hb⟩ := trackThematic_ok t hall.1
        cases b with
        | true => simp [someThematicTracks, hb]
        | false =>
            have := ih tr hmem2 hall.2 htt
            simp [someThematicTracks, hb, this]

/-- C4 counterexample: `validateSpec` is not throw-free.  With `tracks` a
truthy non-array (`tracks: {}`), `spec.tracks?.some(...)` calls `.some`
on a non-array and throws a TypeError (discarding the tracks error it had
already recorded). -/
theorem validateSpec_throws_cex :
    validateSpec (some ⟨some 120, JsArrayField.notArr, none⟩) =
      Except.error "TypeError: spec.tracks.some is not a function" := rfl

/-- C4 amended: on every result `validateSpec` returns (rather than
throws), the validity flag is true exactly when the error list is empty;
the thematic scan cannot throw on a well-formed tracks field; and a
specification whose well-formed tracks contain a section with a thematic
pattern type but no theme definition gets a returned result that is
invalid with an error naming the missing `themeDefinition`.  (Ill-typed
tracks/sections make it throw — see the counterexample.) -/
theorem validateSpec_spec :
    (∀ (sp : Option MidiSpec) (res : ValidationResult),
      validateSpec sp = Except.ok res →
      (res.isValid = true ↔ res.errors = [])) ∧
    (∀ spec : MidiSpec, tracksFieldOk spec.tracks = true →
      ∃ res, validateSpec (some spec) = Except.ok res) ∧
    (∀ (spec : MidiSpec) (ts : List JsTrackVal) (tr : TrackSpec)
        (ss : List JsSectionVal) (sec : Section),
      spec.tracks = JsArrayField.arr ts → tracksFieldOk spec.tracks = true →
      JsTrackVal.track tr ∈ ts → tr.sections = JsArrayField.arr ss →
      JsSectionVal.sec sec ∈ ss →
      isThematicPattern (sec.pattern_type.getD "") = true →
      spec.themeDefinition = none →
      ∃ res, validateSpec (some spec) = Except.ok res ∧
        res.isValid = false ∧
        "Spec contains thematic patterns but no themeDefinition" ∈ res.errors) := by
  refine ⟨?_, ?_, ?_⟩
  · intro sp res h
    cases sp with
    | none =>
        simp only [validateSpec, Except.ok.injEq] at h
        subst h
        simp
    | some spec =>
        cases hE : hasThematicPatternsE spec.tracks with
        | error e => simp [validateSpec, hE, Except.bind, bind] at h
        | ok b =>
            simp only [validateSpec, hE, Except.bind, bind, pure, Except.pure,
              Except.ok.injEq] at h
            subst h
            simp [List.isEmpty_iff]
  · intro spec h
    obtain ⟨b, hb⟩ := hasThematicPatternsE_ok spec.tracks h
    exact ⟨_, by simp only [validateSpec]; rw [hb]; rfl⟩
  · intro spec ts tr ss sec htracks htrOk htrmem hsections hsecmem hthm hthemeDef
    have hallts : ts.all trackValOk = true := by
      rw [htracks] at htrOk
      simpa [tracksFieldOk] using htrOk
    have htrv : trackValOk (JsTrackVal.track tr) = true :=
      List.all_eq_true.mp hallts _ htrmem
    have hallss : ss.all sectionValOk = true := by
      simpa [trackValOk, hsections] using htrv
    have htt : trackThematic (JsTrackVal.track tr) = Except.ok true := by
      simp [trackThematic, hsections,
        someThematicSections_finds ss sec hsecmem hallss hthm]
    have hE : hasThematicPatternsE spec.tracks = Except.ok true := by
      rw [htracks]
      exact someThematicTracks_finds ts tr htrmem hallts htt
    obtain ⟨res, hres⟩ : ∃ res, validateSpec (some spec) = Except.ok res :=
      ⟨_, by simp only [validateSpec]; rw [hE]; rfl⟩
    refine ⟨res, hres, ?_, ?_⟩
    all_goals
      simp only [validateSpec, hE, Except.bind, bind, pure, Except.pure,
        Except.ok.injEq] at hres
      subst hres
    · rw [Bool.eq_false_iff]
      intro habs
      rw [List.isEmpty_iff] at habs
      simp [hthemeDef] at habs
    · simp [hthemeDef]

/-- Closed instance of `validateSpec_spec`: a spec whose single track has a
thematic section but no theme definition validates (without throwing) to an
invalid result carrying the themeDefinition error. -/
theorem validateSpec_spec_witness :
    ∃ res, validateSpec (some
        ⟨some 120,
         JsArrayField.arr [JsTrackVal.track ⟨JsArrayField.arr [JsSectionVal.sec
           ⟨0, 4, some "thematic_statement", none, none, none, none, none⟩]⟩],
         none⟩) = Except.ok res ∧
      res.isValid = false ∧
      "Spec contains thematic patterns but no themeDefinition" ∈ res.errors :=
  validateSpec_spec.2.2
    ⟨some 120,
     JsArrayField.arr [JsTrackVal.track ⟨JsArrayField.arr [JsSectionVal.sec
       ⟨0, 4, some "thematic_statement", none, none, none, none, none⟩]⟩],
     none⟩
    [JsTrackVal.track ⟨JsArrayField.arr [JsSectionVal.sec
       ⟨0, 4, some "thematic_statement", none, none, none, none, none⟩]⟩]
    ⟨JsArrayField.arr [JsSectionVal.sec
       ⟨0, 4, some "thematic_statement", none, none, none, none, none⟩]⟩
    [JsSectionVal.sec ⟨0, 4, some "thematic_statement", none, none, none, none, none⟩]
    ⟨0, 4, some "thematic_statement", none, none, none, none, none⟩
    rfl (by decide) (List.mem_singleton.mpr rfl) rfl
    (List.mem_singleton.mpr rfl) (by decide) rfl

/-- C5 counterexample: the pattern type "toString" is not one of the 16
registered names, yet JS `pattern_type in thematicPatterns` finds the
inherited `Object.prototype.toString`, which is truthy, so the section is
NOT skipped with a warning: `getPattern` returns the inherited function,
its `.apply` is `Function.prototype.apply` (so the handler-invalid guard
also passes), and invoking it just calls `toString` on the track, adding
no notes and throwing nothing.  With a theme present the section thus
yields zero notes and zero warnings. -/
theorem processSection_proto_leak_cex :
    thematicPatternNames.contains "toString" = false ∧
    supportingPatternNames.contains "toString" = false ∧
    isValidPattern "toString" = true ∧
    processSection
        (fun pt => if pt = "toString"
          then some (fun _ => { notes := [], thrown := none }) else none)
        (some ⟨some [60], some [1]⟩) 120
        ⟨0, 4, some "toString", none, none, none, none, none⟩ =
      { notes := [], warnings := [] } :=
  ⟨by decide, by decide, by decide, rfl⟩

/-- C5 amended: sections with a missing or empty pattern type, and
sections whose pattern type passes neither the registries nor the
inherited JS `Object.prototype` keys (`isValidPattern pt = false`),
contribute zero notes and a recorded warning — but inherited names such
as "toString" pass the `in` checks and are NOT warned about (see the
counterexample); thematic sections processed without a theme contribute
zero notes and a warning; processing a list of sections is exactly the
concatenation of the independent per-section results (no section aborts
the walk); and a pattern handler that throws has its emitted notes kept,
its error recorded, and — by the concatenation property — leaves all
remaining sections processed.  All of this holds for every handler
table `getP`. -/
theorem processSection_soft_fail :
    (∀ (getP : GetPattern) (theme : Option Theme) (tempo : ℚ) (s : Section),
      (s.pattern_type = none ∨ s.pattern_type = some "" ∨
        (∃ pt, s.pattern_type = some pt ∧ isValidPattern pt = false)) →
      (processSection getP theme tempo s).notes = [] ∧
      (processSection getP theme tempo s).warnings ≠ []) ∧
    (∀ (getP : GetPattern) (tempo : ℚ) (s : Section) (pt : String),
      s.pattern_type = some pt → isThematicPattern pt = true →
      (processSection getP none tempo s).notes = [] ∧
      (processSection getP none tempo s).warnings ≠ []) ∧
    (∀ (getP : GetPattern) (theme : Option Theme) (tempo : ℚ) (ss : List Section),
      (processSections getP theme tempo ss).notes =
        (ss.map (fun s => (processSection getP theme tempo s).notes)).flatten ∧
      (processSections getP theme tempo ss).warnings =
        (ss.map (fun s => (processSection getP theme tempo s).warnings)).flatten) ∧
    (∀ (getP : GetPattern) (theme : Option Theme) (tempo : ℚ) (s : Section)
        (pt : String) (handler : ApplyCtx → ApplyOutcome) (e : String),
      s.pattern_type = some pt → pt ≠ "" → isValidPattern pt = true →
      getP pt = some handler →
      (isThematicPattern pt = true → theme ≠ none) →
      (handler
        { sect := s, theme := theme, tempo := tempo,
          scale := (buildScaleArr s).1,
          pitches := (buildPitchesArr s (buildScaleArr s).1).1 }).thrown = some e →
      (processSection getP theme tempo s).notes =
        (handler
          { sect := s, theme := theme, tempo := tempo,
            scale := (buildScaleArr s).1,
            pitches := (buildPitchesArr s (buildScaleArr s).1).1 }).notes ∧
      ("Error applying pattern: " ++ e) ∈
        (processSection getP theme tempo s).warnings) := by
  refine ⟨?_, ?_, ?_, ?_⟩
  · intro getP theme tempo s h
    rcases h with h | h | ⟨pt, hpt, hinv⟩
    · simp [processSection, h]
    · simp [processSection, h]
    · by_cases hemp : pt = ""
      · subst hemp
        simp [processSection, hpt]
      · simp [processSection, hpt, hemp, hinv]
  · intro getP tempo s pt hpt hthm
    have hemp : pt ≠ "" := by
      intro habs
      subst habs
      simp [isThematicPattern, thematicPatternNames, objectPrototypeKeys] at hthm
    have hvalid : isValidPattern pt = true := by
      simp only [isValidPattern, Bool.or_eq_true]
      exact Or.inl hthm
    cases hgp : getP pt with
    | none => simp [processSection, hpt, hemp, hvalid, hgp]
    | some handler => simp [processSection, hpt, hemp, hvalid, hgp, hthm]
  · intro getP theme tempo ss
    induction ss with
    | nil => simp [processSections]
    | cons s rest ih => simp [processSections, ih]
  · intro getP theme tempo s pt handler e hpt hemp hvalid hgp hth hthrown
    have hnotskip : ¬ (isThematicPattern pt = true ∧ theme = none) := by
      rintro ⟨h1, h2⟩
      exact (hth h1) h2
    simp only [processSection, hpt, hemp, hvalid, hgp, if_neg hnotskip]
    simp only [if_neg hemp, Bool.not_true, reduceIte]
    rw [hthrown]
    simp

/-- Closed instance of `processSection_soft_fail`: an unregistered pattern
type is skipped with a warning and no notes. -/
theorem processSection_soft_fail_witness :
    (processSection (fun _ => none) none 120
        ⟨0, 4, some "unknown_pattern", none, none, none, none, none⟩).notes = [] ∧
    (processSection (fun _ => none) none 120
        ⟨0, 4, some "unknown_pattern", none, none, none, none, none⟩).warnings ≠ [] :=
  processSection_soft_fail.1 (fun _ => none) none 120
    ⟨0, 4, some "unknown_pattern", none, none, none, none, none⟩
    (Or.inr (Or.inr ⟨"unknown_pattern", rfl, by decide⟩))

/-- C2: the seeded patterns are deterministic.  Each of the three cited
algorithms (gentle breathing, minimal accents, and the accents config
variant) ignores the ambient `Math.random` source entirely — its output
is the same for any two ambient sources — and depends on the section only
through the deterministic fields it reads: `start_time` (from which the
inline generator seed is derived), `end_time`, `velocity_avg` and
`pitch_range`, plus `late_entry` for the config variant, whose seed
derives from the late-entry-adjusted start.  In particular two runs on
identical input produce identical note events. -/
theorem seeded_patterns_deterministic :
    (∀ (f g : Nat → ℚ) (s : Section) (tempo : ℚ) (scale pitches : List Int)
        (fuel : Nat),
      applyGentleBreathing f s tempo scale pitches fuel =
        applyGentleBreathing g s tempo scale pitches fuel) ∧
    (∀ (f g : Nat → ℚ) (s : Section) (pitches : List Int) (fuel : Nat),
      applyMinimalAccents f s pitches fuel = applyMinimalAccents g s pitches fuel) ∧
    (∀ (f g : Nat → ℚ) (s : Section) (pitches : List Int) (fuel : Nat),
      applyMinimalAccentsCfg f s pitches fuel =
        applyMinimalAccentsCfg g s pitches fuel) ∧
    (∀ (f : Nat → ℚ) (s s' : Section) (tempo : ℚ) (scale pitches : List Int)
        (fuel : Nat),
      s.start_time = s'.start_time → s.end_time = s'.end_time →
      s.velocity_avg = s'.velocity_avg → s.pitch_range = s'.pitch_range →
      applyGentleBreathing f s tempo scale pitches fuel =
        applyGentleBreathing f s' tempo scale pitches fuel) ∧
    (∀ (f : Nat → ℚ) (s s' : Section) (pitches : List Int) (fuel : Nat),
      s.start_time = s'.start_time → s.end_time = s'.end_time →
      s.velocity_avg = s'.velocity_avg → s.pitch_range = s'.pitch_range →
      applyMinimalAccents f s pitches fuel = applyMinimalAccents f s' pitches fuel) ∧
    (∀ (f : Nat → ℚ) (s s' : Section) (pitches : List Int) (fuel : Nat),
      s.start_time = s'.start_time → s.end_time = s'.end_time →
      s.late_entry = s'.late_entry → s.velocity_avg = s'.velocity_avg →
      s.pitch_range = s'.pitch_range →
      applyMinimalAccentsCfg f s pitches fuel =
        applyMinimalAccentsCfg f s' pitches fuel) := by
  refine ⟨fun _ _ _ _ _ _ _ => rfl, fun _ _ _ _ _ => rfl, fun _ _ _ _ _ => rfl,
    ?_, ?_, ?_⟩
  · intro f s s' tempo scale pitches fuel h1 h2 h3 h4
    rcases s with ⟨a, b, c, d, e, pr, g, sq⟩
    rcases s' with ⟨a', b', c', d', e', pr', g', sq'⟩
    dsimp only at h1 h2 h3 h4
    subst h1; subst h2; subst h3; subst h4
    rfl
  · intro f s s' pitches fuel h1 h2 h3 h4
    rcases s with ⟨a, b, c, d, e, pr, g, sq⟩
    rcases s' with ⟨a', b', c', d', e', pr', g', sq'⟩
    dsimp only at h1 h2 h3 h4
    subst h1; subst h2; subst h3; subst h4
    rfl
  · intro f s s' pitches fuel h1 h2 h3 h4 h5
    rcases s with ⟨a, b, c, d, e, pr, g, sq⟩
    rcases s' with ⟨a', b', c', d', e', pr', g', sq'⟩
    dsimp only at h1 h2 h3 h4 h5
    subst h1; subst h2; subst h3; subst h4; subst h5
    rfl

/-- Closed instance of `seeded_patterns_deterministic`: gentle breathing
ignores `late_entry`, `pattern_type` and `sequence` — only the fields it
reads matter. -/
theorem seeded_patterns_deterministic_witness :
    applyGentleBreathing (fun _ => 0)
        ⟨0, 4, some "gentle_breathing", some 70, none, none, some 0.5, none⟩
        120 [] [60] 8 =
      applyGentleBreathing (fun _ => 0)
        ⟨0, 4, some "gentle_breathing", some 70, none, none, none, some true⟩
        120 [] [60] 8 :=
  seeded_patterns_deterministic.2.2.2.1 (fun _ => 0)
    ⟨0, 4, some "gentle_breathing", some 70, none, none, some 0.5, none⟩
    ⟨0, 4, some "gentle_breathing", some 70, none, none, none, some true⟩
    120 [] [60] 8 rfl rfl rfl rfl
